import Mathlib

/-!
Verification of `pdf_extractor.py` (repository jurnlee/pdf2txt).

Shallow embedding conventions:
* Python strings are `List Char` (`Str`); Python `str.split('\n')`,
  `str.strip()`, `str.lower()`, `str.startswith`, `str.endswith` and
  `sep.join` are embedded as executable functions below.
* Each extraction library is a black box; its behaviour on the document under
  consideration is a datum (`PageOutcome` for the page-oriented pdfplumber /
  pypdf libraries, `MinerOutcome` for pdfminer's `extract_text`).
  `ImportError` is the `unavailable` constructor, any other exception is
  `failure` with the exception text.
* The logger is modelled as an explicit output: each function returns, next
  to its value, the list of warning/error reasons it logs (`Reason`).
  `extract_pdf_text` additionally returns the list of backends it invoked.
* The filesystem, as seen through the single path passed to
  `check_pdf_file`, is a `PathWorld`: whether `os.path.exists` holds, and
  what `open`/`read` yields (`Except.error` = the read raised).
-/

set_option autoImplicit false
set_option maxRecDepth 8000

namespace PdfExtractor

/-- Python strings, embedded as character lists. -/
abbrev Str := List Char

/-- The characters Python's default `str.strip()` removes (ASCII range). -/
def isPySpace (c : Char) : Bool :=
  c = ' ' || c = '\t' || c = '\n' || c = '\r' || c = '\x0b' || c = '\x0c'

/-- Python `s.strip()`. -/
def pyStrip (s : Str) : Str :=
  ((s.dropWhile isPySpace).reverse.dropWhile isPySpace).reverse

/-- Python `s.split('\n')`. -/
def splitNl : Str → List Str
  | [] => [[]]
  | c :: cs =>
    let r := splitNl cs
    if c = '\n' then [] :: r else (c :: r.headI) :: r.tail

/-- Python `sep.join(parts)`. -/
def joinSep (sep : Str) : List Str → Str
  | [] => []
  | [x] => x
  | x :: y :: rest => x ++ sep ++ joinSep sep (y :: rest)

/-- Python `s.lower()` (ASCII letters; the paths in the claims are ASCII). -/
def pyLower (s : Str) : Str := s.map Char.toLower

/-- Total character count of a list of lines. -/
def sumLen (ls : List Str) : Nat := (ls.map List.length).sum

/-- What the pdfplumber / pypdf library call does on this document:
`ImportError`, another exception, or a list of per-page `extract_text()`
results (`[]` embeds Python's falsy `None`/`""` for a page). -/
inductive PageOutcome where
  | unavailable
  | failure (msg : Str)
  | pages (ps : List Str)

/-- What pdfminer's `extract_text` call does on this document. -/
inductive MinerOutcome where
  | unavailable
  | failure (msg : Str)
  | text (t : Str)

/-- The document under extraction, as seen through the three libraries. -/
structure Doc where
  plumber : PageOutcome
  pypdf : PageOutcome
  miner : MinerOutcome

/-- A per-method reason logged by the code (logger.error / logger.warning):
library missing, extraction raised, pdfminer returned no text, or the
orchestrator judged the output too small (低质量 / 内容过少). -/
inductive Reason where
  | unavailable (lib : String)
  | failed (lib : String) (msg : Str)
  | noText (lib : String)
  | lowQuality (m : String)
deriving DecidableEq

/-- The orchestrator-level method name a reason belongs to. -/
def Reason.meth : Reason → String
  | .unavailable l => if l = "pdfminer.six" then "pdfminer" else l
  | .failed l _ => if l = "pdfminer.six" then "pdfminer" else l
  | .noText l => if l = "pdfminer.six" then "pdfminer" else l
  | .lowQuality m => m

/-- Embeds the marker string built by the page loop, `=== Page i ===`. -/
def pageMark (i : Nat) : Str :=
  "=== Page ".data ++ Nat.toDigits 10 i ++ " ===".data

/-- The `text_parts` list built by the page loop of `extract_with_pdfplumber`
and `extract_with_pypdf` (`enumerate(pages, 1)`): page `i` contributes
`f"=== Page {i} ===\n{page_text}\n"` when `page_text` is truthy and
`f"=== Page {i} === [无文本]\n"` otherwise. -/
def pageParts : Nat → List Str → List Str
  | _, [] => []
  | i, t :: rest =>
    (if t = [] then pageMark i ++ " [无文本]\n".data
     else pageMark i ++ "\n".data ++ t ++ "\n".data) :: pageParts (i + 1) rest

/-- Model of `extract_with_pdfplumber`: value returned, with the reasons it logs. -/
def extract_with_pdfplumber : PageOutcome → Option Str × List Reason
  | .unavailable => (none, [Reason.unavailable "pdfplumber"])
  | .failure e => (none, [Reason.failed "pdfplumber" e])
  | .pages ps => (some (pageParts 1 ps).flatten, [])

/-- Model of `extract_with_pypdf`: same body as `extract_with_pdfplumber`. -/
def extract_with_pypdf : PageOutcome → Option Str × List Reason
  | .unavailable => (none, [Reason.unavailable "pypdf"])
  | .failure e => (none, [Reason.failed "pypdf" e])
  | .pages ps => (some (pageParts 1 ps).flatten, [])

/-- One synthesized pdfminer page: `"=== Page 估计 ===" + "\n".join(chunk)`. -/
def minerPage (c : List Str) : Str :=
  "=== Page 估计 ===".data ++ joinSep "\n".data c

/-- The page-synthesis loop of `extract_with_pdfminer`: accumulate lines in
`current_page`; once `sum(len(l) for l in current_page) >= 2000`, emit the
page and reset; a non-empty leftover is emitted at the end. -/
def minerAux : List Str → List Str → List Str
  | acc, [] => if acc = [] then [] else [minerPage acc]
  | acc, line :: rest =>
    let acc2 := acc ++ [line]
    if 2000 ≤ sumLen acc2 then minerPage acc2 :: minerAux [] rest
    else minerAux acc2 rest

/-- Model of `extract_with_pdfminer`: value returned, with the reasons it logs. -/
def extract_with_pdfminer : MinerOutcome → Option Str × List Reason
  | .unavailable => (none, [Reason.unavailable "pdfminer.six"])
  | .failure e => (none, [Reason.failed "pdfminer.six" e])
  | .text t =>
    if t = [] then (none, [Reason.noText "pdfminer.six"])
    else (some (joinSep "\n\n".data (minerAux [] (splitNl t))), [])

/-- The filesystem as seen through the single path handed to
`check_pdf_file`: whether the path exists, and the file bytes that
`open`/`read` delivers (`Except.error e` = the read raised `e`). -/
structure PathWorld where
  pathExists : Bool
  content : Except Str (List Nat)

/-- Reason string for a missing path. -/
def reasonNoExist (p : Str) : Str := "文件不存在: ".data ++ p

/-- Reason string for a wrong extension. -/
def reasonNotPdf (p : Str) : Str := "文件不是PDF格式: ".data ++ p

/-- The fixed signature-failure reason string. -/
def reasonBadSig : Str := "文件不是有效的PDF（缺少PDF签名）".data

/-- Reason string for a failed read, carrying the exception text. -/
def reasonReadFail (e : Str) : Str := "文件读取失败: ".data ++ e

/-- The four signature bytes of %PDF that the header is tested against. -/
def pdfSig : List Nat := [37, 80, 68, 70]

/-- The `try:` block of `check_pdf_file`: read 5 bytes, test the signature;
a raised exception becomes the read-failure verdict. -/
def readSigCheck (w : PathWorld) : Bool × Str :=
  match w.content with
  | .error e => (false, reasonReadFail e)
  | .ok bs =>
    let header := bs.take 5
    if List.isPrefixOf pdfSig header then (true, "文件有效".data)
    else (false, reasonBadSig)

/-- Model of `check_pdf_file`: the three checks in order, short-circuiting. -/
def check_pdf_file (w : PathWorld) (p : Str) : Bool × Str :=
  if w.pathExists = false then (false, reasonNoExist p)
  else if List.isSuffixOf ".pdf".data (pyLower p) = false then
    (false, reasonNotPdf p)
  else readSigCheck w

/-- The content-line filter of `extract_pdf_text`:
`line.strip() and not line.startswith('===')`. -/
def isContentLine (l : Str) : Bool :=
  !(pyStrip l).isEmpty && !(List.isPrefixOf "===".data l)

/-- Number of content lines of an extraction result. -/
def contentLineCount (s : Str) : Nat :=
  ((splitNl s).filter isContentLine).length

/-- The guard `if extracted_text and extracted_text.strip():`. -/
def pyGuardS (s : Str) : Bool := !s.isEmpty && !(pyStrip s).isEmpty

/-- The quality judge of `extract_pdf_text`: the guard above together with
`len(content_lines) > 5` decides acceptance of a candidate result. -/
def judgeAccepts (s : Str) : Bool :=
  pyGuardS s && decide (5 < contentLineCount s)

/-- Whether a method name matches one of the three dispatch branches. -/
def knownMethod (m : String) : Bool :=
  m == "pdfplumber" || m == "pypdf" || m == "pdfminer"

/-- The backend call a matching dispatch branch performs. -/
def backendRun (doc : Doc) (m : String) : Option Str × List Reason :=
  if m = "pdfplumber" then extract_with_pdfplumber doc.plumber
  else if m = "pypdf" then extract_with_pypdf doc.pypdf
  else extract_with_pdfminer doc.miner

/-- The `for method_name in methods:` loop of `extract_pdf_text`, carrying
the `extracted_text` variable. Returns the final `extracted_text`, the
logged per-method reasons, and the backends actually invoked. An unmatched
method name leaves `extracted_text` unchanged and invokes nothing.
Acceptance (`judgeAccepts`) breaks; a guard-passing rejected result is
reset to `None` with a 内容过少 (low-quality) warning; a falsy result is
carried unchanged. -/
def extractLoop (doc : Doc) : List String → Option Str →
    Option Str × List Reason × List String
  | [], st => (st, [], [])
  | m :: rest, st =>
    let pr := if knownMethod m then backendRun doc m else (st, [])
    let inv : List String := if knownMethod m then [m] else []
    match pr.1 with
    | some s =>
      if judgeAccepts s then (some s, pr.2, inv)
      else if pyGuardS s then
        let r := extractLoop doc rest none
        (r.1, pr.2 ++ Reason.lowQuality m :: r.2.1, inv ++ r.2.2)
      else
        let r := extractLoop doc rest (some s)
        (r.1, pr.2 ++ r.2.1, inv ++ r.2.2)
    | none =>
      let r := extractLoop doc rest none
      (r.1, pr.2 ++ r.2.1, inv ++ r.2.2)

/-- The fixed priority list used by `method='auto'`. -/
def autoMethods : List String := ["pdfplumber", "pypdf", "pdfminer"]

/-- Model of `extract_pdf_text`: validation gate, method-list selection, fallback
loop. Returns the final `extracted_text` plus the modelled log (per-method
reasons) and the invoked backends. -/
def extract_pdf_text (w : PathWorld) (p : Str) (doc : Doc) (method : String) :
    Option Str × List Reason × List String :=
  if (check_pdf_file w p).1 then
    extractLoop doc (if method = "auto" then autoMethods else [method]) none
  else (none, [], [])

example : contentLineCount "a\nb\nc\nd\ne\nf".data = 6 := by decide
example : contentLineCount "=== Page 1 ===\na\n b ".data = 2 := by decide
example : pyStrip "  a\n".data = ['a'] := by decide
example : splitNl "a\n".data = [['a'], []] := by decide
example :
    extract_pdf_text ⟨true, Except.ok [37, 80, 68, 70, 45]⟩ "a.pdf".data
      ⟨PageOutcome.pages [], PageOutcome.unavailable, MinerOutcome.unavailable⟩
      "auto"
      = (none, [Reason.unavailable "pypdf", Reason.unavailable "pdfminer.six"],
         ["pdfplumber", "pypdf", "pdfminer"]) := by decide

/-! Basic facts about the embedded Python string operations. -/

theorem splitNl_nil : splitNl [] = [[]] := rfl

theorem splitNl_cons_nl (cs : Str) : splitNl ('\n' :: cs) = [] :: splitNl cs := by
  simp [splitNl]

theorem splitNl_cons (a : Char) (cs : Str) (h : a ≠ '\n') :
    splitNl (a :: cs) = (a :: (splitNl cs).headI) :: (splitNl cs).tail := by
  simp [splitNl, h]

theorem splitNl_ne_nil (s : Str) : splitNl s ≠ [] := by
  cases s with
  | nil => simp [splitNl]
  | cons c cs => by_cases h : c = '\n' <;> simp [splitNl, h]

theorem pyStrip_eq_nil_iff (s : Str) :
    pyStrip s = [] ↔ ∀ c ∈ s, isPySpace c = true := by
  unfold pyStrip
  rw [List.reverse_eq_nil_iff, List.dropWhile_eq_nil_iff]
  constructor
  · intro h c hc
    have hsplit := List.takeWhile_append_dropWhile (p := isPySpace) (l := s)
    rw [← hsplit] at hc
    rcases List.mem_append.mp hc with h1 | h1
    · exact List.mem_takeWhile_imp h1
    · exact h c (List.mem_reverse.mpr h1)
  · intro h c hc
    exact h c ((List.dropWhile_sublist (p := isPySpace)).mem (List.mem_reverse.mp hc))

theorem pyStrip_nil : pyStrip [] = [] := rfl

theorem mem_of_mem_splitNl (s : Str) : ∀ l ∈ splitNl s, ∀ c ∈ l, c ∈ s := by
  induction s with
  | nil =>
    intro l hl c hc
    rw [splitNl_nil] at hl
    simp at hl
    subst hl
    simp at hc
  | cons a s ih =>
    intro l hl c hc
    by_cases ha : a = '\n'
    · subst ha
      rw [splitNl_cons_nl] at hl
      rcases List.mem_cons.mp hl with h | h
      · subst h; simp at hc
      · exact List.mem_cons_of_mem _ (ih l h c hc)
    · rw [splitNl_cons a s ha] at hl
      rcases hsp : splitNl s with _ | ⟨x, xs⟩
      · exact absurd hsp (splitNl_ne_nil s)
      rw [hsp] at hl
      rcases List.mem_cons.mp hl with h | h
      · subst h
        rcases List.mem_cons.mp hc with h1 | h1
        · subst h1; exact List.mem_cons_self _ _
        · have hx : x ∈ splitNl s := by rw [hsp]; exact List.mem_cons_self x xs
          simp only [List.headI] at h1
          exact List.mem_cons_of_mem _ (ih x hx c h1)
      · have hlm : l ∈ splitNl s := by
          rw [hsp]
          exact List.mem_cons_of_mem x (by simpa using h)
        exact List.mem_cons_of_mem _ (ih l hlm c hc)

theorem exists_content_line (s : Str) (h : 0 < contentLineCount s) :
    ∃ l ∈ splitNl s, isContentLine l = true := by
  unfold contentLineCount at h
  rcases hF : (splitNl s).filter isContentLine with _ | ⟨x, xs⟩
  · rw [hF] at h; simp at h
  · have hx : x ∈ (splitNl s).filter isContentLine := by
      rw [hF]; exact List.mem_cons_self x xs
    exact ⟨x, (List.mem_filter.mp hx).1, (List.mem_filter.mp hx).2⟩

theorem strip_ne_of_content (s : Str) (h : 0 < contentLineCount s) :
    pyStrip s ≠ [] ∧ s ≠ [] := by
  obtain ⟨l, hl, hcl⟩ := exists_content_line s h
  have hstrip : pyStrip l ≠ [] := by
    intro hnil
    unfold isContentLine at hcl
    rw [hnil] at hcl
    simp at hcl
  obtain ⟨c, hc, hcs⟩ : ∃ c ∈ l, isPySpace c = false := by
    by_contra hall
    push_neg at hall
    apply hstrip
    rw [pyStrip_eq_nil_iff]
    intro c hc
    cases hval : isPySpace c with
    | false => exact absurd hval (hall c hc)
    | true => rfl
  have hcins : c ∈ s := mem_of_mem_splitNl s l hl c hc
  refine ⟨?_, ?_⟩
  · intro hnil
    rw [pyStrip_eq_nil_iff] at hnil
    rw [hnil c hcins] at hcs
    cases hcs
  · intro hnil; subst hnil; simp at hcins

theorem judge_of_count (s : Str) (h : 5 < contentLineCount s) :
    judgeAccepts s = true := by
  obtain ⟨h1, h2⟩ := strip_ne_of_content s (by omega)
  simp [judgeAccepts, pyGuardS, List.isEmpty_iff, h1, h2, h]

theorem judge_false_of_count (s : Str) (h : contentLineCount s ≤ 5) :
    judgeAccepts s = false := by
  have hn : ¬ (5 < contentLineCount s) := by omega
  simp [judgeAccepts, hn]

theorem append_ne_of_take (k : Nat) (a b t u : List Char)
    (ha : k ≤ a.length) (hb : k ≤ b.length) (h : a.take k ≠ b.take k) :
    a ++ t ≠ b ++ u := by
  intro he
  apply h
  have h2 := congrArg (List.take k) he
  rwa [List.take_append_of_le_length ha, List.take_append_of_le_length hb] at h2

theorem sumLen_dropLast_le : ∀ l : List Str, sumLen l.dropLast ≤ sumLen l
  | [] => le_refl _
  | [_] => by simp [sumLen]
  | a :: b :: t => by
    have ih := sumLen_dropLast_le (b :: t)
    simp only [List.dropLast_cons₂, sumLen, List.map_cons, List.sum_cons] at *
    omega

/-! Facts about the page-oriented backends' segment lists. -/

theorem pageParts_length : ∀ (n : Nat) (ps : List Str),
    (pageParts n ps).length = ps.length
  | _, [] => rfl
  | n, _ :: rest => by
    simp [pageParts, pageParts_length (n + 1) rest]

theorem pageParts_getElem? : ∀ (n i : Nat) (ps : List Str),
    (pageParts n ps)[i]? = (ps[i]?).map (fun t =>
      if t = [] then pageMark (n + i) ++ " [无文本]\n".data
      else pageMark (n + i) ++ "\n".data ++ t ++ "\n".data)
  | _, _, [] => by simp [pageParts]
  | n, 0, t :: rest => by simp [pageParts]
  | n, i + 1, t :: rest => by
    have ih := pageParts_getElem? (n + 1) i rest
    have harith : n + 1 + i = n + (i + 1) := by omega
    rw [harith] at ih
    simpa [pageParts] using ih

theorem eq_mem_pageMark (i : Nat) : '=' ∈ pageMark i := by
  unfold pageMark
  exact List.mem_append_left _ (List.mem_append_left _ (by decide))

theorem strip_ne_of_eq_mem (s : Str) (h : '=' ∈ s) : pyStrip s ≠ [] := by
  intro hnil
  rw [pyStrip_eq_nil_iff] at hnil
  have hsp := hnil '=' h
  simp [isPySpace] at hsp

theorem eq_mem_pageParts_flatten : ∀ (n : Nat) (ps : List Str), ps ≠ [] →
    '=' ∈ (pageParts n ps).flatten
  | _, [], h => absurd rfl h
  | n, t :: rest, _ => by
    simp only [pageParts, List.flatten_cons]
    apply List.mem_append_left
    split
    · exact List.mem_append_left _ (eq_mem_pageMark n)
    · exact List.mem_append_left _
        (List.mem_append_left _ (List.mem_append_left _ (eq_mem_pageMark n)))

/-! Facts about the pdfminer page-synthesis loop. -/

theorem mem_joinSep_head (sep x : Str) (xs : List Str) (c : Char) (h : c ∈ x) :
    c ∈ joinSep sep (x :: xs) := by
  cases xs with
  | nil => simpa [joinSep] using h
  | cons y r =>
    simp only [joinSep, List.append_assoc]
    exact List.mem_append_left _ h

theorem mem_dropLast_cons {α : Type} (a : α) (l : List α) (c : α)
    (h : c ∈ (a :: l).dropLast) : l ≠ [] ∧ (c = a ∨ c ∈ l.dropLast) := by
  cases l with
  | nil => simp at h
  | cons x xs =>
    exact ⟨by simp, List.mem_cons.mp h⟩

theorem dropLast_append_single {α : Type} : ∀ (l : List α) (a : α),
    (l ++ [a]).dropLast = l
  | [], _ => rfl
  | [_], _ => rfl
  | x :: y :: t, a => by
    have ih := dropLast_append_single (y :: t) a
    show x :: ((y :: t) ++ [a]).dropLast = x :: y :: t
    rw [ih]

theorem minerAux_chunks : ∀ (lines acc : List Str), sumLen acc < 2000 →
    ∃ chunks : List (List Str),
      minerAux acc lines = chunks.map minerPage ∧
      chunks.flatten = acc ++ lines ∧
      (∀ c ∈ chunks, c ≠ []) ∧
      (∀ c ∈ chunks.dropLast, 2000 ≤ sumLen c) ∧
      (∀ c ∈ chunks, sumLen c.dropLast < 2000)
  | [], acc, hacc => by
    by_cases h : acc = []
    · exact ⟨[], by simp [minerAux, h], by simp [h], by simp, by simp, by simp⟩
    · refine ⟨[acc], by simp [minerAux, h], by simp, ?_, by simp, ?_⟩
      · intro c hc; simp at hc; subst hc; exact h
      · intro c hc; simp at hc; subst hc
        exact lt_of_le_of_lt (sumLen_dropLast_le _) hacc
  | line :: rest, acc, hacc => by
    by_cases h : 2000 ≤ sumLen (acc ++ [line])
    · obtain ⟨chunks, h1, h2, h3, h4, h5⟩ :=
        minerAux_chunks rest [] (by simp [sumLen])
      refine ⟨(acc ++ [line]) :: chunks, ?_, ?_, ?_, ?_, ?_⟩
      · simp [minerAux, h, h1]
      · simp [h2, List.append_assoc]
      · intro c hc
        rcases List.mem_cons.mp hc with rfl | hc2
        · simp
        · exact h3 c hc2
      · intro c hc
        obtain ⟨-, hc2⟩ := mem_dropLast_cons _ _ _ hc
        rcases hc2 with rfl | hc3
        · exact h
        · exact h4 c hc3
      · intro c hc
        rcases List.mem_cons.mp hc with rfl | hc2
        · rw [dropLast_append_single]; exact hacc
        · exact h5 c hc2
    · have hlt : sumLen (acc ++ [line]) < 2000 := by omega
      obtain ⟨chunks, h1, h2, h3, h4, h5⟩ := minerAux_chunks rest (acc ++ [line]) hlt
      refine ⟨chunks, ?_, ?_, h3, h4, h5⟩
      · simp [minerAux, h, h1]
      · rw [h2]; simp [List.append_assoc]

theorem minerResult_eq_mem (t : Str) :
    '=' ∈ joinSep "\n\n".data (minerAux [] (splitNl t)) := by
  obtain ⟨chunks, h1, h2, -, -, -⟩ :=
    minerAux_chunks (splitNl t) [] (by simp [sumLen])
  rw [h1]
  cases hch : chunks with
  | nil =>
    rw [hch] at h2
    simp at h2
    exact absurd h2 (splitNl_ne_nil t)
  | cons x xs =>
    simp only [List.map_cons]
    exact mem_joinSep_head _ _ _ _ (List.mem_append_left _ (by decide))

/-! Step lemmas for the fallback loop. -/

theorem extractLoop_nil (doc : Doc) (st : Option Str) :
    extractLoop doc [] st = (st, [], []) := rfl

theorem loop_break (doc : Doc) (m : String) (rest : List String)
    (st : Option Str) (s : Str) (rs : List Reason)
    (hkm : knownMethod m = true) (hr : backendRun doc m = (some s, rs))
    (hacc : judgeAccepts s = true) :
    extractLoop doc (m :: rest) st = (some s, rs, [m]) := by
  simp [extractLoop, hkm, hr, hacc]

theorem loop_lowq (doc : Doc) (m : String) (rest : List String)
    (st : Option Str) (s : Str) (rs : List Reason)
    (hkm : knownMethod m = true) (hr : backendRun doc m = (some s, rs))
    (hacc : judgeAccepts s = false) (hg : pyGuardS s = true) :
    extractLoop doc (m :: rest) st =
      ((extractLoop doc rest none).1,
       rs ++ Reason.lowQuality m :: (extractLoop doc rest none).2.1,
       m :: (extractLoop doc rest none).2.2) := by
  simp [extractLoop, hkm, hr, hacc, hg]

theorem loop_carry (doc : Doc) (m : String) (rest : List String)
    (st : Option Str) (s : Str) (rs : List Reason)
    (hkm : knownMethod m = true) (hr : backendRun doc m = (some s, rs))
    (hg : pyGuardS s = false) :
    extractLoop doc (m :: rest) st =
      ((extractLoop doc rest (some s)).1,
       rs ++ (extractLoop doc rest (some s)).2.1,
       m :: (extractLoop doc rest (some s)).2.2) := by
  have hacc : judgeAccepts s = false := by simp [judgeAccepts, hg]
  simp [extractLoop, hkm, hr, hacc, hg]

theorem loop_none (doc : Doc) (m : String) (rest : List String)
    (st : Option Str) (rs : List Reason)
    (hkm : knownMethod m = true) (hr : backendRun doc m = (none, rs)) :
    extractLoop doc (m :: rest) st =
      ((extractLoop doc rest none).1,
       rs ++ (extractLoop doc rest none).2.1,
       m :: (extractLoop doc rest none).2.2) := by
  simp [extractLoop, hkm, hr]

theorem loop_unknown_none (doc : Doc) (m : String) (rest : List String)
    (hkm : knownMethod m = false) :
    extractLoop doc (m :: rest) none = extractLoop doc rest none := by
  simp [extractLoop, hkm]

theorem loop_state_irrel (doc : Doc) (m : String) (rest : List String)
    (st st' : Option Str) (hkm : knownMethod m = true) :
    extractLoop doc (m :: rest) st = extractLoop doc (m :: rest) st' := by
  rcases hr : backendRun doc m with ⟨o, rs⟩
  cases o with
  | none =>
    rw [loop_none doc m rest st rs hkm hr, loop_none doc m rest st' rs hkm hr]
  | some s =>
    cases hacc : judgeAccepts s with
    | true =>
      rw [loop_break doc m rest st s rs hkm hr hacc,
        loop_break doc m rest st' s rs hkm hr hacc]
    | false =>
      cases hg : pyGuardS s with
      | true =>
        rw [loop_lowq doc m rest st s rs hkm hr hacc hg,
          loop_lowq doc m rest st' s rs hkm hr hacc hg]
      | false =>
        rw [loop_carry doc m rest st s rs hkm hr hg,
          loop_carry doc m rest st' s rs hkm hr hg]

theorem known_cases (m : String) (hkm : knownMethod m = true) :
    m = "pdfplumber" ∨ m = "pypdf" ∨ m = "pdfminer" := by
  simpa [knownMethod, or_assoc] using hkm

theorem backendRun_plumber (doc : Doc) :
    backendRun doc "pdfplumber" = extract_with_pdfplumber doc.plumber := rfl

theorem backendRun_pypdf (doc : Doc) :
    backendRun doc "pypdf" = extract_with_pypdf doc.pypdf := by
  simp [backendRun]

theorem backendRun_miner (doc : Doc) :
    backendRun doc "pdfminer" = extract_with_pdfminer doc.miner := by
  simp [backendRun]

/-- The per-backend facts the fallback analysis relies on: a `None` result is
logged with exactly one reason attributed to this method; a returned string
comes with no logged reason and, when non-empty, has non-whitespace content
(its page markers). -/
def Behaved (pr : Option Str × List Reason) (m : String) : Prop :=
  (pr.1 = none → pr.2.map Reason.meth = [m]) ∧
  ∀ s, pr.1 = some s → pr.2 = [] ∧ (s ≠ [] → pyStrip s ≠ [])

theorem behaved_pages (ps : List Str) (m : String) :
    Behaved (some (pageParts 1 ps).flatten, []) m := by
  refine ⟨fun h => by simp at h, fun s hs => ⟨rfl, fun hne => ?_⟩⟩
  have hsome := Option.some.inj hs
  subst hsome
  apply strip_ne_of_eq_mem
  apply eq_mem_pageParts_flatten
  intro hps
  subst hps
  exact hne rfl

theorem behaved_run (doc : Doc) (m : String) (hkm : knownMethod m = true) :
    Behaved (backendRun doc m) m := by
  rcases known_cases m hkm with rfl | rfl | rfl
  · rw [backendRun_plumber]
    cases doc.plumber with
    | unavailable =>
      exact ⟨fun _ => by simp [extract_with_pdfplumber, Reason.meth],
        fun s hs => by simp [extract_with_pdfplumber] at hs⟩
    | failure e =>
      exact ⟨fun _ => by simp [extract_with_pdfplumber, Reason.meth],
        fun s hs => by simp [extract_with_pdfplumber] at hs⟩
    | pages ps => exact behaved_pages ps "pdfplumber"
  · rw [backendRun_pypdf]
    cases doc.pypdf with
    | unavailable =>
      exact ⟨fun _ => by simp [extract_with_pypdf, Reason.meth],
        fun s hs => by simp [extract_with_pypdf] at hs⟩
    | failure e =>
      exact ⟨fun _ => by simp [extract_with_pypdf, Reason.meth],
        fun s hs => by simp [extract_with_pypdf] at hs⟩
    | pages ps => exact behaved_pages ps "pypdf"
  · rw [backendRun_miner]
    cases doc.miner with
    | unavailable =>
      exact ⟨fun _ => by simp [extract_with_pdfminer, Reason.meth],
        fun s hs => by simp [extract_with_pdfminer] at hs⟩
    | failure e =>
      exact ⟨fun _ => by simp [extract_with_pdfminer, Reason.meth],
        fun s hs => by simp [extract_with_pdfminer] at hs⟩
    | text t =>
      by_cases ht : t = []
      · subst ht
        exact ⟨fun _ => by simp [extract_with_pdfminer, Reason.meth],
          fun s hs => by simp [extract_with_pdfminer] at hs⟩
      · refine ⟨fun h => by simp [extract_with_pdfminer, ht] at h,
          fun s hs => ?_⟩
        simp only [extract_with_pdfminer, if_neg ht] at hs
        have hsome := Option.some.inj hs
        refine ⟨by simp [extract_with_pdfminer, ht], fun hne => ?_⟩
        rw [← hsome]
        exact strip_ne_of_eq_mem _ (minerResult_eq_mem t)

theorem loop_all_reject (doc : Doc) : ∀ (methods : List String)
    (st : Option Str),
    (∀ m ∈ methods, knownMethod m = true) →
    (∀ m ∈ methods, ∀ s, (backendRun doc m).1 = some s →
      judgeAccepts s = false) →
    (st = none ∨ st = some []) →
    ((extractLoop doc methods st).1 = none ∨
      (extractLoop doc methods st).1 = some []) ∧
    (extractLoop doc methods st).2.1.map Reason.meth =
      methods.filter (fun m => decide ((backendRun doc m).1 ≠ some ([] : Str))) ∧
    (extractLoop doc methods st).2.2 = methods
  | [], st, _, _, hst => by
    rw [extractLoop_nil]
    exact ⟨hst, by simp, rfl⟩
  | m :: rest, st, hkn, hrej, hst => by
    have hkm := hkn m (List.mem_cons_self _ _)
    have hB := behaved_run doc m hkm
    have ih := loop_all_reject doc rest none
      (fun x hx => hkn x (List.mem_cons_of_mem _ hx))
      (fun x hx => hrej x (List.mem_cons_of_mem _ hx)) (Or.inl rfl)
    rcases hr : backendRun doc m with ⟨o, rs⟩
    cases o with
    | none =>
      rw [loop_none doc m rest st rs hkm hr]
      have hmap : rs.map Reason.meth = [m] := by
        have hB1 := hB.1
        rw [hr] at hB1
        exact hB1 rfl
      have hfil : decide ((backendRun doc m).1 ≠ some ([] : Str)) = true := by
        rw [hr]; simp
      refine ⟨ih.1, ?_, by simp [ih.2.2]⟩
      simp only [List.map_append, hmap, ih.2.1, List.filter_cons, hfil]
      simp
    | some s =>
      have hBs := hB.2 s (by rw [hr])
      have hrs : rs = [] := by
        have := hBs.1
        rw [hr] at this
        exact this
      subst hrs
      have hacc : judgeAccepts s = false := by
        apply hrej m (List.mem_cons_self _ _)
        rw [hr]
      by_cases hs : s = []
      · subst hs
        have hg : pyGuardS ([] : Str) = false := by simp [pyGuardS]
        rw [loop_carry doc m rest st [] [] hkm hr hg]
        have ih2 := loop_all_reject doc rest (some [])
          (fun x hx => hkn x (List.mem_cons_of_mem _ hx))
          (fun x hx => hrej x (List.mem_cons_of_mem _ hx)) (Or.inr rfl)
        have hfil : decide ((backendRun doc m).1 ≠ some ([] : Str)) = false := by
          rw [hr]; simp
        refine ⟨ih2.1, ?_, by simp [ih2.2.2]⟩
        simp only [List.nil_append, ih2.2.1, List.filter_cons, hfil]
        simp
      · have hstrip : pyStrip s ≠ [] := hBs.2 hs
        have hg : pyGuardS s = true := by
          simp [pyGuardS, List.isEmpty_iff, hs, hstrip]
        rw [loop_lowq doc m rest st s [] hkm hr hacc hg]
        have hfil : decide ((backendRun doc m).1 ≠ some ([] : Str)) = true := by
          rw [hr]
          simp [hs]
        refine ⟨ih.1, ?_, by simp [ih.2.2]⟩
        simp only [List.nil_append, List.map_cons, ih.2.1, List.filter_cons, hfil]
        simp [Reason.meth]

theorem loop_reject_step (doc : Doc) (m : String) (rest : List String)
    (st : Option Str) (hkm : knownMethod m = true)
    (hrej : ∀ s, (backendRun doc m).1 = some s → contentLineCount s ≤ 5) :
    ∃ st2, (extractLoop doc (m :: rest) st).1 = (extractLoop doc rest st2).1 ∧
      (extractLoop doc (m :: rest) st).2.2 =
        m :: (extractLoop doc rest st2).2.2 := by
  rcases hr : backendRun doc m with ⟨o, rs⟩
  cases o with
  | none =>
    exact ⟨none, by rw [loop_none doc m rest st rs hkm hr],
      by rw [loop_none doc m rest st rs hkm hr]⟩
  | some s =>
    have hacc : judgeAccepts s = false :=
      judge_false_of_count s (hrej s (by rw [hr]))
    by_cases hg : pyGuardS s = true
    · exact ⟨none, by rw [loop_lowq doc m rest st s rs hkm hr hacc hg],
        by rw [loop_lowq doc m rest st s rs hkm hr hacc hg]⟩
    · have hgf : pyGuardS s = false := by simpa using hg
      exact ⟨some s, by rw [loop_carry doc m rest st s rs hkm hr hgf],
        by rw [loop_carry doc m rest st s rs hkm hr hgf]⟩

/-! Concrete worlds and documents shared by witnesses and counterexamples. -/

/-- A world where the path exists and the file carries a good signature. -/
def w0 : PathWorld := ⟨true, Except.ok [37, 80, 68, 70, 45]⟩

/-- A concrete well-formed path. -/
def p0 : Str := "a.pdf".data

/-- A document with a zero-page pdfplumber result (raw result is the empty
string) and the other two libraries missing. -/
def doc0 : Doc :=
  ⟨PageOutcome.pages [], PageOutcome.unavailable, MinerOutcome.unavailable⟩

/-- A document whose pdfplumber result has six content lines. -/
def doc1 : Doc :=
  ⟨PageOutcome.pages ["a\nb\nc\nd\ne\nf".data], PageOutcome.unavailable,
   MinerOutcome.unavailable⟩

/-! The claims. -/

/-- C1: with method auto, if the backend at position k of the priority order
is the first whose raw result has more than 5 content lines, then
`extract_pdf_text` returns exactly that backend's result and invokes exactly
the first k+1 backends — no later backend is attempted. -/
theorem claim1_auto_first_accept (w : PathWorld) (p : Str) (doc : Doc)
    (k : Nat) (mk : String)
    (hv : (check_pdf_file w p).1 = true)
    (hmk : autoMethods[k]? = some mk)
    (hgood : ∃ s, (backendRun doc mk).1 = some s ∧ 5 < contentLineCount s)
    (hbad : ∀ j mj, j < k → autoMethods[j]? = some mj →
      ∀ s, (backendRun doc mj).1 = some s → contentLineCount s ≤ 5) :
    (extract_pdf_text w p doc "auto").1 = (backendRun doc mk).1 ∧
    (extract_pdf_text w p doc "auto").2.2 = autoMethods.take (k + 1) := by
  have hE : extract_pdf_text w p doc "auto" =
      extractLoop doc autoMethods none := by
    simp [extract_pdf_text, hv]
  rcases k with _ | _ | _ | k
  · have hmk0 : "pdfplumber" = mk := by simpa [autoMethods] using hmk
    subst hmk0
    obtain ⟨s, hs1, hs2⟩ := hgood
    rcases hrr : backendRun doc "pdfplumber" with ⟨o, rs⟩
    have ho : o = some s := by rw [hrr] at hs1; exact hs1
    subst ho
    rw [hE]
    simp only [autoMethods]
    rw [loop_break doc "pdfplumber" ["pypdf", "pdfminer"] none s rs
      (by decide) hrr (judge_of_count s hs2)]
    exact ⟨rfl, rfl⟩
  · have hmk1 : "pypdf" = mk := by simpa [autoMethods] using hmk
    subst hmk1
    obtain ⟨s, hs1, hs2⟩ := hgood
    have hrej0 : ∀ s0, (backendRun doc "pdfplumber").1 = some s0 →
        contentLineCount s0 ≤ 5 :=
      fun s0 h => hbad 0 "pdfplumber" (by omega) rfl s0 h
    rcases hrr : backendRun doc "pypdf" with ⟨o, rs⟩
    have ho : o = some s := by rw [hrr] at hs1; exact hs1
    subst ho
    obtain ⟨st2, ha, hb⟩ :=
      loop_reject_step doc "pdfplumber" ["pypdf", "pdfminer"] none
        (by decide) hrej0
    rw [loop_state_irrel doc "pypdf" ["pdfminer"] st2 none (by decide)]
      at ha hb
    have hbreak : extractLoop doc ["pypdf", "pdfminer"] none =
        (some s, rs, ["pypdf"]) :=
      loop_break doc "pypdf" ["pdfminer"] none s rs (by decide) hrr
        (judge_of_count s hs2)
    constructor
    · rw [hE]; simp only [autoMethods]; rw [ha, hbreak]
    · rw [hE]; simp only [autoMethods]; rw [hb, hbreak]; rfl
  · have hmk2 : "pdfminer" = mk := by simpa [autoMethods] using hmk
    subst hmk2
    obtain ⟨s, hs1, hs2⟩ := hgood
    have hrej0 : ∀ s0, (backendRun doc "pdfplumber").1 = some s0 →
        contentLineCount s0 ≤ 5 :=
      fun s0 h => hbad 0 "pdfplumber" (by omega) rfl s0 h
    have hrej1 : ∀ s0, (backendRun doc "pypdf").1 = some s0 →
        contentLineCount s0 ≤ 5 :=
      fun s0 h => hbad 1 "pypdf" (by omega) rfl s0 h
    rcases hrr : backendRun doc "pdfminer" with ⟨o, rs⟩
    have ho : o = some s := by rw [hrr] at hs1; exact hs1
    subst ho
    obtain ⟨st2, ha, hb⟩ :=
      loop_reject_step doc "pdfplumber" ["pypdf", "pdfminer"] none
        (by decide) hrej0
    rw [loop_state_irrel doc "pypdf" ["pdfminer"] st2 none (by decide)]
      at ha hb
    obtain ⟨st3, hc, hd⟩ :=
      loop_reject_step doc "pypdf" ["pdfminer"] none (by decide) hrej1
    rw [loop_state_irrel doc "pdfminer" [] st3 none (by decide)] at hc hd
    have hbreak : extractLoop doc ["pdfminer"] none =
        (some s, rs, ["pdfminer"]) :=
      loop_break doc "pdfminer" [] none s rs (by decide) hrr
        (judge_of_count s hs2)
    constructor
    · rw [hE]; simp only [autoMethods]; rw [ha, hc, hbreak]
    · rw [hE]; simp only [autoMethods]; rw [hb, hd, hbreak]; rfl
  · exfalso
    simp [autoMethods] at hmk

/-- Witness for C1: pdfplumber produces six content lines and is returned
with only one backend invoked. -/
theorem claim1_witness :
    (extract_pdf_text w0 p0 doc1 "auto").1 =
      (backendRun doc1 "pdfplumber").1 ∧
    (extract_pdf_text w0 p0 doc1 "auto").2.2 = autoMethods.take 1 :=
  claim1_auto_first_accept w0 p0 doc1 0 "pdfplumber" (by decide) rfl
    ⟨(pageParts 1 ["a\nb\nc\nd\ne\nf".data]).flatten, rfl, by decide⟩
    (fun j mj hj => absurd hj (Nat.not_lt_zero j))

/-- C2: the quality judge rejects an empty or whitespace-only result; any
other result is accepted exactly when its content-line count exceeds 5, so
exactly 5 content lines are rejected and exactly 6 accepted. -/
theorem claim2_quality_judge (s : Str) :
    (pyStrip s = [] → judgeAccepts s = false) ∧
    (pyStrip s ≠ [] → (judgeAccepts s = true ↔ 5 < contentLineCount s)) ∧
    (contentLineCount s = 5 → judgeAccepts s = false) ∧
    (contentLineCount s = 6 → judgeAccepts s = true) := by
  refine ⟨?_, ?_, ?_, ?_⟩
  · intro h
    simp [judgeAccepts, pyGuardS, h]
  · intro _
    constructor
    · intro hj
      by_contra hc
      rw [judge_false_of_count s (by omega)] at hj
      cases hj
    · exact judge_of_count s
  · intro h
    exact judge_false_of_count s (by omega)
  · intro h
    exact judge_of_count s (by omega)

/-- Witness for C2 at a six-content-line result. -/
theorem claim2_witness :
    pyStrip "a\nb\nc\nd\ne\nf".data ≠ [] ∧
    (judgeAccepts "a\nb\nc\nd\ne\nf".data = true ↔
      5 < contentLineCount "a\nb\nc\nd\ne\nf".data) :=
  ⟨by decide, (claim2_quality_judge "a\nb\nc\nd\ne\nf".data).2.1 (by decide)⟩

/-- C3 (amended): in auto mode, when every backend's raw result is None or
has at most 5 content lines, the final value is falsy (None or the empty
string), all three backends are invoked, and the logged reasons name, in
priority order, exactly those attempted backends whose raw result was not
the empty string — a backend returning the empty string contributes no
recorded reason. -/
theorem claim3_aggregate_failure (w : PathWorld) (p : Str) (doc : Doc)
    (hv : (check_pdf_file w p).1 = true)
    (hrej : ∀ m ∈ autoMethods, ∀ s, (backendRun doc m).1 = some s →
      contentLineCount s ≤ 5) :
    ((extract_pdf_text w p doc "auto").1 = none ∨
      (extract_pdf_text w p doc "auto").1 = some []) ∧
    (extract_pdf_text w p doc "auto").2.1.map Reason.meth =
      autoMethods.filter
        (fun m => decide ((backendRun doc m).1 ≠ some ([] : Str))) ∧
    (extract_pdf_text w p doc "auto").2.2 = autoMethods := by
  have hE : extract_pdf_text w p doc "auto" =
      extractLoop doc autoMethods none := by
    simp [extract_pdf_text, hv]
  rw [hE]
  refine loop_all_reject doc autoMethods none ?_ ?_ (Or.inl rfl)
  · intro m hm
    fin_cases hm <;> decide
  · intro m hm s hs
    exact judge_false_of_count s (hrej m hm s hs)

/-- Counterexample to C3 as stated: pdfplumber yields the empty string (a
zero-page document), pypdf and pdfminer are unavailable; all three backends
are attempted but only two reasons are recorded — not exactly one per
attempted backend. -/
theorem claim3_counterexample :
    (backendRun doc0 "pdfplumber").1 = some ([] : Str) ∧
    (backendRun doc0 "pypdf").1 = none ∧
    (backendRun doc0 "pdfminer").1 = none ∧
    (extract_pdf_text w0 p0 doc0 "auto").2.2 =
      ["pdfplumber", "pypdf", "pdfminer"] ∧
    (extract_pdf_text w0 p0 doc0 "auto").2.1.map Reason.meth =
      ["pypdf", "pdfminer"] ∧
    (extract_pdf_text w0 p0 doc0 "auto").2.1.length = 2 := by
  decide

/-- Witness for C3 (amended) at the document of the counterexample. -/
theorem claim3_witness :
    ((extract_pdf_text w0 p0 doc0 "auto").1 = none ∨
      (extract_pdf_text w0 p0 doc0 "auto").1 = some []) ∧
    (extract_pdf_text w0 p0 doc0 "auto").2.1.map Reason.meth =
      autoMethods.filter
        (fun m => decide ((backendRun doc0 m).1 ≠ some ([] : Str))) ∧
    (extract_pdf_text w0 p0 doc0 "auto").2.2 = autoMethods :=
  claim3_aggregate_failure w0 p0 doc0 (by decide) (by
    intro m hm s hs
    fin_cases hm
    · have h0 : (backendRun doc0 "pdfplumber").1 = some ([] : Str) := by decide
      rw [h0] at hs
      have hnil : s = [] := (Option.some.inj hs).symm
      subst hnil
      decide
    · have h0 : (backendRun doc0 "pypdf").1 = none := by decide
      rw [h0] at hs
      cases hs
    · have h0 : (backendRun doc0 "pdfminer").1 = none := by decide
      rw [h0] at hs
      cases hs)

/-- C4: `check_pdf_file` performs the existence, extension and signature
checks in that order, short-circuiting on the first failure, with three
pairwise distinct reason strings; a path failing any check makes
`extract_pdf_text` return the failure value with no backend invoked. -/
theorem claim4_validator (w : PathWorld) (p : Str) :
    (w.pathExists = false → check_pdf_file w p = (false, reasonNoExist p)) ∧
    (w.pathExists = true →
      List.isSuffixOf ".pdf".data (pyLower p) = false →
      check_pdf_file w p = (false, reasonNotPdf p)) ∧
    (∀ bs, w.pathExists = true →
      List.isSuffixOf ".pdf".data (pyLower p) = true →
      w.content = Except.ok bs →
      List.isPrefixOf pdfSig (bs.take 5) = false →
      check_pdf_file w p = (false, reasonBadSig)) ∧
    (∀ q : Str, reasonNoExist p ≠ reasonNotPdf q ∧
      reasonNoExist p ≠ reasonBadSig ∧ reasonNotPdf p ≠ reasonBadSig) ∧
    (∀ (doc : Doc) (m : String), (check_pdf_file w p).1 = false →
      extract_pdf_text w p doc m = (none, [], [])) := by
  refine ⟨?_, ?_, ?_, ?_, ?_⟩
  · intro h
    simp [check_pdf_file, h]
  · intro h1 h2
    simp [check_pdf_file, h1, h2]
  · intro bs h1 h2 h3 h4
    simp [check_pdf_file, h1, h2, readSigCheck, h3, h4]
  · intro q
    refine ⟨?_, ?_, ?_⟩
    · simp [reasonNoExist, reasonNotPdf]
    · simp [reasonNoExist, reasonBadSig]
    · simp [reasonNotPdf, reasonBadSig]
  · intro doc m h
    simp [extract_pdf_text, h]

/-- Witness for C4: a missing path is rejected with the existence reason,
that reason differs from the signature reason, and no backend is invoked. -/
theorem claim4_witness :
    check_pdf_file ⟨false, Except.error []⟩ "x".data =
      (false, reasonNoExist "x".data) ∧
    reasonNoExist "x".data ≠ reasonBadSig ∧
    extract_pdf_text ⟨false, Except.error []⟩ "x".data doc0 "auto" =
      (none, [], []) := by
  obtain ⟨h1, -, -, h4, h5⟩ :=
    claim4_validator ⟨false, Except.error []⟩ "x".data
  exact ⟨h1 rfl, (h4 []).2.1, h5 doc0 "auto" (by decide)⟩

/-- C5 (amended): selecting one named backend invokes exactly that backend
and no other, whatever the others would have returned; when its result is
None or has at most 5 content lines the final value is falsy, with exactly
one recorded reason — except that an empty-string raw result leaves no
recorded reason. -/
theorem claim5_single_method (w : PathWorld) (p : Str) (doc : Doc)
    (m : String) (hv : (check_pdf_file w p).1 = true)
    (hkm : knownMethod m = true) :
    (extract_pdf_text w p doc m).2.2 = [m] ∧
    ((∀ s, (backendRun doc m).1 = some s → contentLineCount s ≤ 5) →
      ((extract_pdf_text w p doc m).1 = none ∨
        (extract_pdf_text w p doc m).1 = some []) ∧
      (extract_pdf_text w p doc m).2.1.map Reason.meth =
        (if (backendRun doc m).1 = some ([] : Str) then [] else [m])) := by
  have hauto : m ≠ "auto" := by
    rcases known_cases m hkm with rfl | rfl | rfl <;> decide
  have hE : extract_pdf_text w p doc m = extractLoop doc [m] none := by
    simp [extract_pdf_text, hv, hauto]
  constructor
  · rw [hE]
    rcases hr : backendRun doc m with ⟨o, rs⟩
    cases o with
    | none => rw [loop_none doc m [] none rs hkm hr, extractLoop_nil]
    | some s =>
      cases hacc : judgeAccepts s with
      | true => rw [loop_break doc m [] none s rs hkm hr hacc]
      | false =>
        cases hg : pyGuardS s with
        | true => rw [loop_lowq doc m [] none s rs hkm hr hacc hg, extractLoop_nil]
        | false => rw [loop_carry doc m [] none s rs hkm hr hg, extractLoop_nil]
  · intro hrej
    have h := loop_all_reject doc [m] none
      (by intro x hx; simp at hx; subst hx; exact hkm)
      (by
        intro x hx s hs
        simp at hx
        subst hx
        exact judge_false_of_count s (hrej s hs))
      (Or.inl rfl)
    rw [hE]
    refine ⟨h.1, ?_⟩
    rw [h.2.1]
    by_cases he : (backendRun doc m).1 = some ([] : Str)
    · simp [List.filter_cons, he]
    · simp [List.filter_cons, he]

/-- Counterexample to C5 as stated: requesting pdfplumber on a zero-page
document terminates with the empty-string result, one invoked backend, and
zero recorded reasons, refuting "exactly one recorded reason". -/
theorem claim5_counterexample :
    extract_pdf_text w0 p0 doc0 "pdfplumber" =
      (some ([] : Str), [], ["pdfplumber"]) := by
  decide

/-- Witness for C5 (amended) with an unavailable single backend. -/
theorem claim5_witness :
    (extract_pdf_text w0 p0 doc0 "pypdf").2.2 = ["pypdf"] ∧
    (((extract_pdf_text w0 p0 doc0 "pypdf").1 = none ∨
       (extract_pdf_text w0 p0 doc0 "pypdf").1 = some []) ∧
     (extract_pdf_text w0 p0 doc0 "pypdf").2.1.map Reason.meth =
       (if (backendRun doc0 "pypdf").1 = some ([] : Str) then []
        else ["pypdf"])) := by
  have h := claim5_single_method w0 p0 doc0 "pypdf" (by decide) (by decide)
  refine ⟨h.1, h.2 ?_⟩
  intro s hs
  have h0 : (backendRun doc0 "pypdf").1 = none := by decide
  rw [h0] at hs
  cases hs

/-- C6: on a document with N pages, each page-oriented backend returns the
concatenation of exactly N per-page segments; the segment at position i
carries page number i+1 (ascending order, no omissions), holds the page's
text when the page has one, and otherwise is the explicit 无文本 (no text)
marker segment rather than being dropped. -/
theorem claim6_page_segments (ps : List Str) :
    extract_with_pdfplumber (PageOutcome.pages ps) =
      (some (pageParts 1 ps).flatten, []) ∧
    extract_with_pypdf (PageOutcome.pages ps) =
      (some (pageParts 1 ps).flatten, []) ∧
    (pageParts 1 ps).length = ps.length ∧
    (∀ i : Nat, (pageParts 1 ps)[i]? = (ps[i]?).map (fun t =>
      if t = [] then pageMark (i + 1) ++ " [无文本]\n".data
      else pageMark (i + 1) ++ "\n".data ++ t ++ "\n".data)) := by
  refine ⟨rfl, rfl, pageParts_length 1 ps, ?_⟩
  intro i
  have h := pageParts_getElem? 1 i ps
  simpa [Nat.add_comm 1 i] using h

/-- C7: for non-empty extracted text the pdfminer backend splits the text
into lines and partitions them into chunks in order without loss; every
chunk except possibly the last reached the 2000-character threshold, every
chunk closed as soon as the threshold was reached (its lines short of the
last sum to less than 2000), the leftover lines form the final chunk, and
every chunk is rendered as a segment starting with the estimated-page
marker (=== Page 估计 ===). -/
theorem claim7_miner_pagination (t : Str) (hne : t ≠ []) :
    ∃ chunks : List (List Str),
      extract_with_pdfminer (MinerOutcome.text t) =
        (some (joinSep "\n\n".data (chunks.map minerPage)), []) ∧
      chunks.flatten = splitNl t ∧
      (∀ c ∈ chunks, c ≠ []) ∧
      (∀ c ∈ chunks.dropLast, 2000 ≤ sumLen c) ∧
      (∀ c ∈ chunks, sumLen c.dropLast < 2000) ∧
      (∀ c ∈ chunks, ∃ r : Str,
        minerPage c = "=== Page 估计 ===".data ++ r) := by
  obtain ⟨chunks, h1, h2, h3, h4, h5⟩ :=
    minerAux_chunks (splitNl t) [] (by simp [sumLen])
  refine ⟨chunks, ?_, by simpa using h2, h3, h4, h5, ?_⟩
  · simp [extract_with_pdfminer, hne, h1]
  · intro c _
    exact ⟨joinSep "\n".data c, rfl⟩

/-- Witness for C7 on a one-character text. -/
theorem claim7_witness :
    ("a".data ≠ ([] : Str)) ∧
    ∃ chunks : List (List Str),
      extract_with_pdfminer (MinerOutcome.text "a".data) =
        (some (joinSep "\n\n".data (chunks.map minerPage)), []) ∧
      chunks.flatten = splitNl "a".data ∧
      (∀ c ∈ chunks, c ≠ []) ∧
      (∀ c ∈ chunks.dropLast, 2000 ≤ sumLen c) ∧
      (∀ c ∈ chunks, sumLen c.dropLast < 2000) ∧
      (∀ c ∈ chunks, ∃ r : Str,
        minerPage c = "=== Page 估计 ===".data ++ r) :=
  ⟨by decide, claim7_miner_pagination "a".data (by decide)⟩

/-- C8: the extension check lowercases the path first, so any existing path
whose lowercased form ends in .pdf passes check (b): the verdict is exactly
the signature stage's and is never the wrong-extension rejection. -/
theorem claim8_lowercase_extension (w : PathWorld) (p : Str)
    (hex : w.pathExists = true)
    (hsuf : List.isSuffixOf ".pdf".data (pyLower p) = true) :
    check_pdf_file w p = readSigCheck w ∧
    (check_pdf_file w p).2 ≠ reasonNotPdf p := by
  have heq : check_pdf_file w p = readSigCheck w := by
    simp [check_pdf_file, hex, hsuf]
  refine ⟨heq, ?_⟩
  rw [heq]
  cases hc : w.content with
  | error e =>
    simp only [readSigCheck, hc]
    simp [reasonReadFail, reasonNotPdf]
  | ok bs =>
    simp only [readSigCheck, hc]
    by_cases hsig : List.isPrefixOf pdfSig (bs.take 5)
    · simp only [if_pos hsig]
      simp [reasonNotPdf]
    · simp only [if_neg hsig]
      simp [reasonBadSig, reasonNotPdf]

/-- Witness for C8 at an uppercase .PDF path. -/
theorem claim8_witness :
    check_pdf_file w0 "A.PDF".data = readSigCheck w0 ∧
    (check_pdf_file w0 "A.PDF".data).2 ≠ reasonNotPdf "A.PDF".data :=
  claim8_lowercase_extension w0 "A.PDF".data rfl (by decide)

/-- C9: when the path exists with a .pdf extension but reading its first
bytes raises, `check_pdf_file` returns Invalid with the dedicated
read-failure reason (no exception escapes), and that reason differs from
the three other rejection reasons. -/
theorem claim9_read_failure (w : PathWorld) (p e : Str)
    (hex : w.pathExists = true)
    (hsuf : List.isSuffixOf ".pdf".data (pyLower p) = true)
    (hc : w.content = Except.error e) :
    check_pdf_file w p = (false, reasonReadFail e) ∧
    (∀ q : Str, reasonReadFail e ≠ reasonNoExist q ∧
      reasonReadFail e ≠ reasonNotPdf q) ∧
    reasonReadFail e ≠ reasonBadSig := by
  refine ⟨?_, ?_, ?_⟩
  · simp [check_pdf_file, hex, hsuf, readSigCheck, hc]
  · intro q
    constructor
    · simp [reasonReadFail, reasonNoExist]
    · simp [reasonReadFail, reasonNotPdf]
  · simp [reasonReadFail, reasonBadSig]

/-- Witness for C9 on a concrete raising read. -/
theorem claim9_witness :
    check_pdf_file ⟨true, Except.error "boom".data⟩ "a.pdf".data =
      (false, reasonReadFail "boom".data) :=
  (claim9_read_failure ⟨true, Except.error "boom".data⟩ "a.pdf".data
    "boom".data rfl (by decide) rfl).1

/-- C10: a method name that is neither auto nor one of the three known
backends invokes no backend and the function returns the failure value None
without raising and with nothing logged. -/
theorem claim10_unknown_method (w : PathWorld) (p : Str) (doc : Doc)
    (m : String) (hv : (check_pdf_file w p).1 = true)
    (hauto : m ≠ "auto") (hkm : knownMethod m = false) :
    extract_pdf_text w p doc m = (none, [], []) := by
  have hE : extract_pdf_text w p doc m = extractLoop doc [m] none := by
    simp [extract_pdf_text, hv, hauto]
  rw [hE, loop_unknown_none doc m [] hkm, extractLoop_nil]

/-- Witness for C10 with the unknown method name ocr. -/
theorem claim10_witness :
    extract_pdf_text w0 p0 doc0 "ocr" = (none, [], []) :=
  claim10_unknown_method w0 p0 doc0 "ocr" (by decide) (by decide) (by decide)

end PdfExtractor
